import Mathlib

/-!
Verification of the Ready for Robots lead-intelligence pipeline.

The repository ships the Next.js frontend (dashboard, admin panel) in
JavaScript; the FastAPI backend (health monitor / circuit breaker, signal
deduplication, scoring engine) is deployed from the same repo but its Python
sources are not in the tree, so those parts are modelled from the design
document, as marked on each definition.  All frontend helpers are translated
directly from the JavaScript sources.
-/

namespace ReadyForRobots

/-- Priority tier of a lead. -/
inductive Tier where
  | HOT
  | WARM
  | COLD
deriving DecidableEq, Repr

/-- Tier from an overall score, as computed inline in `handleOpenFromSearch`
(dashboard, `pages/index.js`): `overall_score >= 75 ? 'HOT' :
overall_score >= 45 ? 'WARM' : 'COLD'`.  Scores are modelled as rationals. -/
def priority_tier (overall_score : ℚ) : Tier :=
  if overall_score ≥ 75 then .HOT
  else if overall_score ≥ 45 then .WARM
  else .COLD

/-- JavaScript `Math.round`: rounds half toward positive infinity,
`Math.round x = ⌊x + 1/2⌋`. -/
def jsRound (x : ℚ) : ℤ := ⌊x + 1/2⌋

/-- `ScoreBar` percentage (dashboard, `pages/index.js` line 19):
`const pct = Math.min(100, Math.max(0, Math.round(value)))`, with the
destructuring default `value = 0` applied when the prop is absent. -/
def scoreBarPct (value : Option ℚ) : ℤ :=
  min 100 (max 0 (jsRound (value.getD 0)))

/-- A signal object as the dashboard receives it from the API; only the
fields the dashboard helpers inspect are carried. -/
structure DSignal where
  signal_type : String
  raw_text : String
deriving DecidableEq, Repr

/-- Recursive form of the JS `signals.filter` with a mutable `seen` set
(`uniqueSignalTypes`, `pages/index.js` lines 82-85): a signal is kept iff
its `signal_type` was not seen before, and kept types are added to `seen`. -/
def uniqueSignalTypesAux (seen : List String) : List DSignal → List DSignal
  | [] => []
  | s :: rest =>
    if s.signal_type ∈ seen then uniqueSignalTypesAux seen rest
    else s :: uniqueSignalTypesAux (s.signal_type :: seen) rest

/-- `uniqueSignalTypes` (dashboard, `pages/index.js` lines 82-85). -/
def uniqueSignalTypes (signals : List DSignal) : List DSignal :=
  uniqueSignalTypesAux [] signals

/-- Modelled from the spec: per-URL `HealthRecord` of the Health Monitor /
Circuit Breaker (spec section 3); the Python backend containing it is not in
the tree. -/
structure HealthRecord where
  consecutive_failures : Nat
  consecutive_successes : Nat
  circuit_open : Bool
  opened_at : Option Nat
  last_success : Option Nat
  restart_count : Nat
deriving DecidableEq, Repr

/-- Modelled from the spec: the failure threshold policy constant
(section 4.1, default 5). -/
def F_OPEN : Nat := 5

/-- Modelled from the spec: a fresh record, created lazily on first scrape
attempt. -/
def initHealth : HealthRecord :=
  { consecutive_failures := 0, consecutive_successes := 0, circuit_open := false,
    opened_at := none, last_success := none, restart_count := 0 }

/-- Modelled from the spec: `record_failure(url)` increments
`consecutive_failures`, resets `consecutive_successes` to 0, and if
`consecutive_failures ≥ F_OPEN` transitions to OPEN with `opened_at = now`
(section 4.1). -/
def record_failure (now : Nat) (h : HealthRecord) : HealthRecord :=
  let cf := h.consecutive_failures + 1
  if F_OPEN ≤ cf then
    { h with consecutive_failures := cf, consecutive_successes := 0,
             circuit_open := true, opened_at := some now }
  else
    { h with consecutive_failures := cf, consecutive_successes := 0 }

/-- Modelled from the spec: `record_success(url)` resets
`consecutive_failures` to 0, increments `consecutive_successes`, sets
`last_success = now`, and when the circuit was OPEN (or HALF_OPEN, which the
record represents as OPEN with a probe in flight) transitions to CLOSED and
increments `restart_count` (section 4.1). -/
def record_success (now : Nat) (h : HealthRecord) : HealthRecord :=
  { consecutive_failures := 0,
    consecutive_successes := h.consecutive_successes + 1,
    circuit_open := false,
    opened_at := none,
    last_success := some now,
    restart_count := if h.circuit_open then h.restart_count + 1 else h.restart_count }

/-- Modelled from the spec: administrative `reset(url)` forces CLOSED and
zeroes the consecutive counters (section 4.1). -/
def reset_health (h : HealthRecord) : HealthRecord :=
  { h with consecutive_failures := 0, consecutive_successes := 0,
           circuit_open := false, opened_at := none }

/-- Modelled from the spec: exponential cooldown
`base * 2 ^ min restart_count cap` (section 4.1); `base` and `cap` are
configuration constants and kept as parameters. -/
def cooldown (base cap : Nat) (h : HealthRecord) : Nat :=
  base * 2 ^ min h.restart_count cap

/-- Modelled from the spec: `is_eligible(url, now)` — CLOSED is eligible;
OPEN is eligible only once `now - opened_at ≥ cooldown` (section 4.1). -/
def is_eligible (base cap now : Nat) (h : HealthRecord) : Bool :=
  if h.circuit_open then
    match h.opened_at with
    | some t => decide (cooldown base cap h ≤ now - t)
    | none => false
  else true

/-- One Health Monitor operation on a single URL's record. -/
inductive HealthOp where
  | fail (now : Nat)
  | succeed (now : Nat)
  | adminReset
deriving DecidableEq, Repr

/-- Apply one operation to a record. -/
def applyHealthOp (h : HealthRecord) : HealthOp → HealthRecord
  | .fail now => record_failure now h
  | .succeed now => record_success now h
  | .adminReset => reset_health h

/-- The record a URL holds after a history of operations starting from the
lazily created fresh record. -/
def runHealthOps (ops : List HealthOp) : HealthRecord :=
  ops.foldl applyHealthOp initHealth

/-- A run of consecutive `record_failure` calls at the given timestamps,
with no intervening success. -/
def record_failures (ts : List Nat) (h : HealthRecord) : HealthRecord :=
  ts.foldl (fun acc t => record_failure t acc) h

/-- Modelled from the spec (sections 4.1 and 5): the per-URL probe
bookkeeping — the health record plus the "probe in flight" flag used by the
HALF_OPEN test-and-set. -/
structure ProbeState where
  health : HealthRecord
  probe_in_flight : Bool
deriving DecidableEq, Repr

/-- Modelled from the spec: an OPEN circuit whose cooldown window has
elapsed, i.e. a HALF_OPEN probe could be granted. -/
def probe_ready (base cap now : Nat) (h : HealthRecord) : Bool :=
  h.circuit_open &&
    match h.opened_at with
    | some t => decide (cooldown base cap h ≤ now - t)
    | none => false

/-- Modelled from the spec (section 5): one atomic eligibility check with
test-and-set on the per-URL probe flag.  CLOSED circuits are eligible
without a probe; an OPEN circuit whose cooldown has elapsed grants a single
HALF_OPEN probe only when no probe is in flight, atomically setting the
flag.  Returns (granted, new state). -/
def check_eligibility (base cap now : Nat) (s : ProbeState) : Bool × ProbeState :=
  if s.health.circuit_open then
    if probe_ready base cap now s.health then
      if s.probe_in_flight then (false, s)
      else (true, { s with probe_in_flight := true })
    else (false, s)
  else (true, s)

/-- Modelled from the spec (section 5): a run of concurrent eligibility
checks for one URL.  Each check is atomic (per-URL test-and-set), so every
interleaving of concurrent checks is one sequence of checks; the result is
the number of granted probes and the final state. -/
def run_checks (base cap : Nat) : List Nat → ProbeState → Nat × ProbeState
  | [], s => (0, s)
  | now :: rest, s =>
    let r := check_eligibility base cap now s
    let rst := run_checks base cap rest r.2
    ((if r.1 then 1 else 0) + rst.1, rst.2)

end ReadyForRobots

namespace ReadyForRobots

/-- C1: the priority tier is determined from `overall_score` by the fixed
thresholds `≥ 75 → HOT`, `45 ≤ _ < 75 → WARM`, `< 45 → COLD`; in particular
75 is HOT, 74.999 is WARM, 45 is WARM, and 44.999 is COLD. -/
theorem C1_priority_tier_thresholds :
    (∀ s : ℚ, 75 ≤ s → priority_tier s = .HOT) ∧
    (∀ s : ℚ, 45 ≤ s → s < 75 → priority_tier s = .WARM) ∧
    (∀ s : ℚ, s < 45 → priority_tier s = .COLD) ∧
    priority_tier 75 = .HOT ∧
    priority_tier (74999/1000) = .WARM ∧
    priority_tier 45 = .WARM ∧
    priority_tier (44999/1000) = .COLD := by
  refine ⟨?_, ?_, ?_, ?_, ?_, ?_, ?_⟩
  · intro s hs
    simp [priority_tier, hs]
  · intro s h45 h75
    have : ¬ (75 ≤ s) := not_le.mpr h75
    simp [priority_tier, this, h45]
  · intro s h45
    have h75 : ¬ (75 ≤ s) := not_le.mpr (h45.trans (by norm_num))
    have h45' : ¬ (45 ≤ s) := not_le.mpr h45
    simp [priority_tier, h75, h45']
  · norm_num [priority_tier]
  · norm_num [priority_tier]
  · norm_num [priority_tier]
  · norm_num [priority_tier]

/-- Witness for C1 at concrete scores. -/
theorem C1_priority_tier_thresholds_witness :
    priority_tier 80 = .HOT ∧ priority_tier 50 = .WARM ∧ priority_tier 10 = .COLD :=
  ⟨C1_priority_tier_thresholds.1 80 (by norm_num),
   C1_priority_tier_thresholds.2.1 50 (by norm_num) (by norm_num),
   C1_priority_tier_thresholds.2.2.1 10 (by norm_num)⟩

/-- Behaviour of `uniqueSignalTypesAux`, generalized over the `seen`
accumulator: the output is a subsequence of the input, mentions no type in
`seen`, has pairwise-distinct types, covers every input type not already in
`seen`, and every kept signal is the first occurrence of its type in the
input. -/
theorem uniqueSignalTypesAux_spec (seen : List String) (l : List DSignal) :
    (uniqueSignalTypesAux seen l).Sublist l ∧
    (∀ u ∈ uniqueSignalTypesAux seen l, u.signal_type ∉ seen) ∧
    ((uniqueSignalTypesAux seen l).map DSignal.signal_type).Nodup ∧
    (∀ s ∈ l, s.signal_type ∈ seen ∨
      ∃ u ∈ uniqueSignalTypesAux seen l, u.signal_type = s.signal_type) ∧
    (∀ u ∈ uniqueSignalTypesAux seen l,
      l.find? (fun x => x.signal_type == u.signal_type) = some u) := by
  induction l generalizing seen with
  | nil => simp [uniqueSignalTypesAux]
  | cons s rest ih =>
    by_cases hs : s.signal_type ∈ seen
    · obtain ⟨ih1, ih2, ih3, ih4, ih5⟩ := ih seen
      have heq : uniqueSignalTypesAux seen (s :: rest) = uniqueSignalTypesAux seen rest := by
        simp [uniqueSignalTypesAux, hs]
      rw [heq]
      refine ⟨ih1.cons _, ih2, ih3, ?_, ?_⟩
      · intro x hx
        rcases List.mem_cons.mp hx with rfl | hx
        · exact Or.inl hs
        · exact ih4 x hx
      · intro u hu
        have hne : ¬ ((fun x => x.signal_type == u.signal_type) s = true) := by
          simp only [beq_iff_eq]
          intro hcontr
          exact ih2 u hu (hcontr ▸ hs)
        exact (List.find?_cons_of_neg rest hne).trans (ih5 u hu)
    · obtain ⟨ih1, ih2, ih3, ih4, ih5⟩ := ih (s.signal_type :: seen)
      have heq : uniqueSignalTypesAux seen (s :: rest) =
          s :: uniqueSignalTypesAux (s.signal_type :: seen) rest := by
        simp [uniqueSignalTypesAux, hs]
      rw [heq]
      refine ⟨ih1.cons₂ _, ?_, ?_, ?_, ?_⟩
      · intro u hu
        rcases List.mem_cons.mp hu with rfl | hu
        · exact hs
        · exact fun hc => ih2 u hu (List.mem_cons_of_mem _ hc)
      · refine List.nodup_cons.mpr ⟨?_, ih3⟩
        intro hmem
        obtain ⟨u, hu, hut⟩ := List.mem_map.mp hmem
        exact ih2 u hu (hut ▸ List.mem_cons_self _ _)
      · intro x hx
        rcases List.mem_cons.mp hx with rfl | hx
        · exact Or.inr ⟨x, List.mem_cons_self _ _, rfl⟩
        · rcases ih4 x hx with hmem | ⟨u, hu, hut⟩
          · rcases List.mem_cons.mp hmem with hts | hts
            · exact Or.inr ⟨s, List.mem_cons_self _ _, hts.symm⟩
            · exact Or.inl hts
          · exact Or.inr ⟨u, List.mem_cons_of_mem _ hu, hut⟩
      · intro u hu
        rcases List.mem_cons.mp hu with rfl | hu
        · exact List.find?_cons_of_pos rest (by simp)
        · have hne : ¬ ((fun x => x.signal_type == u.signal_type) s = true) := by
            simp only [beq_iff_eq]
            intro hcontr
            exact ih2 u hu (hcontr ▸ List.mem_cons_self _ _)
          exact (List.find?_cons_of_neg rest hne).trans (ih5 u hu)

/-- C10: `uniqueSignalTypes` keeps exactly the first signal of each distinct
`signal_type` in input order: the result is a subsequence of the input, each
type appears at most once, every input type is represented, and each kept
signal is the earliest occurrence of its type. -/
theorem C10_uniqueSignalTypes_first_occurrence (l : List DSignal) :
    (uniqueSignalTypes l).Sublist l ∧
    ((uniqueSignalTypes l).map DSignal.signal_type).Nodup ∧
    (∀ s ∈ l, ∃ u ∈ uniqueSignalTypes l, u.signal_type = s.signal_type) ∧
    (∀ u ∈ uniqueSignalTypes l,
      l.find? (fun x => x.signal_type == u.signal_type) = some u) := by
  obtain ⟨h1, _, h3, h4, h5⟩ := uniqueSignalTypesAux_spec [] l
  exact ⟨h1, h3, fun s hs => (h4 s hs).resolve_left (by simp), h5⟩

/-- Witness for C10: on a concrete list with a repeated type, the kept
representative of type "a" is its earliest occurrence. -/
theorem C10_uniqueSignalTypes_first_occurrence_witness :
    ([⟨"a", "x"⟩, ⟨"b", "y"⟩, ⟨"a", "z"⟩] : List DSignal).find?
      (fun x => x.signal_type == "a") = some ⟨"a", "x"⟩ := by
  have h := (C10_uniqueSignalTypes_first_occurrence
    [⟨"a", "x"⟩, ⟨"b", "y"⟩, ⟨"a", "z"⟩]).2.2.2
  have hu : (⟨"a", "x"⟩ : DSignal) ∈
      uniqueSignalTypes [⟨"a", "x"⟩, ⟨"b", "y"⟩, ⟨"a", "z"⟩] := by decide
  exact h ⟨"a", "x"⟩ hu

/-- C9: `ScoreBar` is total and range-safe: for every input (absent
defaulting to 0) the rendered percentage is `min 100 (max 0 (round value))`
and always lies in `[0, 100]`. -/
theorem C9_scoreBar_range_safe :
    ∀ v : Option ℚ,
      scoreBarPct v = min 100 (max 0 (jsRound (v.getD 0))) ∧
      0 ≤ scoreBarPct v ∧ scoreBarPct v ≤ 100 := by
  intro v
  refine ⟨rfl, ?_, ?_⟩
  · have h : (0 : ℤ) ≤ max 0 (jsRound (v.getD 0)) := le_max_left _ _
    exact le_min (by norm_num) h
  · exact min_le_left _ _

end ReadyForRobots

namespace ReadyForRobots

/-- Consecutive failures accumulate: a run of failures adds its length to the
failure counter. -/
theorem record_failures_consecutive_failures (ts : List Nat) (h : HealthRecord) :
    (record_failures ts h).consecutive_failures = h.consecutive_failures + ts.length := by
  induction ts generalizing h with
  | nil => simp [record_failures]
  | cons t rest ih =>
    have : record_failures (t :: rest) h = record_failures rest (record_failure t h) := rfl
    rw [this, ih]
    unfold record_failure
    by_cases hcf : F_OPEN ≤ h.consecutive_failures + 1 <;> simp [hcf] <;> omega

/-- A failure run splits at its last element. -/
theorem record_failures_append_last (ts : List Nat) (t : Nat) (h : HealthRecord) :
    record_failures (ts ++ [t]) h = record_failure t (record_failures ts h) := by
  unfold record_failures
  rw [List.foldl_append]
  rfl

/-- The circuit-open invariant is preserved by every Health Monitor
operation. -/
theorem healthInv_applyHealthOp (h : HealthRecord) (op : HealthOp)
    (hh : h.circuit_open = true → F_OPEN ≤ h.consecutive_failures) :
    (applyHealthOp h op).circuit_open = true →
      F_OPEN ≤ (applyHealthOp h op).consecutive_failures := by
  cases op with
  | fail now =>
    unfold applyHealthOp record_failure
    by_cases hcf : F_OPEN ≤ h.consecutive_failures + 1
    · simp [hcf]
    · simp only [hcf, if_false]
      intro hopen
      exact hcf (le_trans (hh hopen) (Nat.le_succ _))
  | succeed now => simp [applyHealthOp, record_success]
  | adminReset => simp [applyHealthOp, reset_health]

/-- The circuit-open invariant holds along any operation history. -/
theorem healthInv_foldl (ops : List HealthOp) (h : HealthRecord)
    (hh : h.circuit_open = true → F_OPEN ≤ h.consecutive_failures) :
    (ops.foldl applyHealthOp h).circuit_open = true →
      F_OPEN ≤ (ops.foldl applyHealthOp h).consecutive_failures := by
  induction ops generalizing h with
  | nil => exact hh
  | cons op rest ih => exact ih _ (healthInv_applyHealthOp h op hh)

/-- C2: after `F_OPEN` consecutive `record_failure` calls with no
intervening success the circuit is OPEN with `opened_at` set to the last
failure time; `is_eligible` is false while `now - opened_at < cooldown`; and
along any operation history, `circuit_open = true` implies
`consecutive_failures ≥ F_OPEN`. -/
theorem C2_circuit_breaker_opens (h : HealthRecord) (ts : List Nat) (t : Nat)
    (hlen : F_OPEN ≤ ts.length + 1) :
    ((record_failures (ts ++ [t]) h).circuit_open = true ∧
     (record_failures (ts ++ [t]) h).opened_at = some t) ∧
    (∀ (base cap now u : Nat) (g : HealthRecord),
       g.circuit_open = true → g.opened_at = some u →
       now - u < cooldown base cap g →
       is_eligible base cap now g = false) ∧
    (∀ ops : List HealthOp,
       (runHealthOps ops).circuit_open = true →
       F_OPEN ≤ (runHealthOps ops).consecutive_failures) := by
  refine ⟨?_, ?_, ?_⟩
  · rw [record_failures_append_last]
    have hcf : F_OPEN ≤ (record_failures ts h).consecutive_failures + 1 := by
      rw [record_failures_consecutive_failures]
      omega
    unfold record_failure
    simp [hcf]
  · intro base cap now u g hopen hat hcd
    unfold is_eligible
    rw [hopen, hat]
    simp only [if_true, decide_eq_false_iff_not]
    omega
  · intro ops
    exact healthInv_foldl ops initHealth (by simp [initHealth])

/-- Witness for C2: five consecutive failures on a fresh record open the
circuit at the fifth failure time, and the record is ineligible before the
cooldown elapses. -/
theorem C2_circuit_breaker_opens_witness :
    ((record_failures ([1, 2, 3, 4] ++ [5]) initHealth).circuit_open = true ∧
     (record_failures ([1, 2, 3, 4] ++ [5]) initHealth).opened_at = some 5) ∧
    is_eligible 60 6 10
      { initHealth with circuit_open := true, opened_at := some 5,
                        consecutive_failures := 5 } = false := by
  have h := C2_circuit_breaker_opens initHealth [1, 2, 3, 4] 5 (by decide)
  refine ⟨h.1, ?_⟩
  exact h.2.1 60 6 10 5 _ rfl rfl (by decide)

/-- A check never changes the health part of the state, and the probe flag
never goes from set back to clear during checks. -/
theorem check_eligibility_health (base cap now : Nat) (s : ProbeState) :
    (check_eligibility base cap now s).2.health = s.health := by
  unfold check_eligibility
  by_cases h1 : s.health.circuit_open <;>
    by_cases h2 : probe_ready base cap now s.health <;>
      by_cases h3 : s.probe_in_flight <;> simp [h1, h2, h3]

/-- At most one probe is granted by any run of checks: the grant count plus
the initial probe flag is bounded by one whenever the circuit is open. -/
theorem run_checks_grant_bound (base cap : Nat) (nows : List Nat) :
    ∀ s : ProbeState, s.health.circuit_open = true →
      (run_checks base cap nows s).1 + (if s.probe_in_flight then 1 else 0) ≤ 1 := by
  induction nows with
  | nil =>
    intro s _
    by_cases hf : s.probe_in_flight <;> simp [run_checks, hf]
  | cons now rest ih =>
    intro s hopen
    by_cases hf : s.probe_in_flight
    · have hstep : check_eligibility base cap now s = (false, s) := by
        unfold check_eligibility
        by_cases h2 : probe_ready base cap now s.health <;> simp [hopen, h2, hf]
      have h2 := ih s hopen
      simp only [run_checks, hstep, if_false] at *
      simp [hf] at h2 ⊢
      omega
    · by_cases hr : probe_ready base cap now s.health
      · have hstep : check_eligibility base cap now s =
            (true, { s with probe_in_flight := true }) := by
          unfold check_eligibility
          simp [hopen, hr, hf]
        have h2 := ih { s with probe_in_flight := true } hopen
        simp only [run_checks, hstep] at *
        simp [hf] at h2 ⊢
        omega
      · have hstep : check_eligibility base cap now s = (false, s) := by
          unfold check_eligibility
          simp [hopen, hr]
        have h2 := ih s hopen
        simp only [run_checks, hstep] at *
        simp [hf] at h2 ⊢
        omega

/-- C6: with the per-URL test-and-set, a check made while a probe is in
flight for an open circuit is never granted, and any sequence of atomic
eligibility checks (equivalently, any interleaving of concurrent checks)
grants at most one HALF_OPEN probe. -/
theorem C6_at_most_one_probe_in_flight :
    (∀ (base cap now : Nat) (s : ProbeState),
       s.health.circuit_open = true → s.probe_in_flight = true →
       (check_eligibility base cap now s).1 = false) ∧
    (∀ (base cap : Nat) (nows : List Nat) (s : ProbeState),
       s.health.circuit_open = true →
       (run_checks base cap nows s).1 ≤ 1) := by
  constructor
  · intro base cap now s hopen hf
    unfold check_eligibility
    by_cases h2 : probe_ready base cap now s.health <;> simp [hopen, h2, hf]
  · intro base cap nows s hopen
    exact le_trans (Nat.le_add_right _ _) (run_checks_grant_bound base cap nows s hopen)

/-- Witness for C6: three concurrent checks after the cooldown of an open
circuit grant at most one probe, and a check during an in-flight probe is
not granted. -/
theorem C6_at_most_one_probe_in_flight_witness :
    (check_eligibility 1 0 100
      ⟨{ initHealth with circuit_open := true, opened_at := some 0,
                         consecutive_failures := 5 }, true⟩).1 = false ∧
    (run_checks 1 0 [100, 100, 100]
      ⟨{ initHealth with circuit_open := true, opened_at := some 0,
                         consecutive_failures := 5 }, false⟩).1 ≤ 1 := by
  constructor
  · exact C6_at_most_one_probe_in_flight.1 1 0 100 _ rfl rfl
  · exact C6_at_most_one_probe_in_flight.2 1 0 [100, 100, 100] _ rfl

end ReadyForRobots

namespace ReadyForRobots

/-- Signal type enumeration, as listed in the dashboard's SIGNAL_META and the
spec's examples. -/
inductive SignalType where
  | funding_round
  | strategic_hire
  | capex
  | ma_activity
  | expansion
  | job_posting
  | labor_shortage
  | news
deriving DecidableEq, Repr

/-- Drop leading whitespace characters. -/
def dropLeadingWS : List Char → List Char
  | [] => []
  | c :: rest => if c.isWhitespace then dropLeadingWS rest else c :: rest

/-- Trim whitespace from both ends of a character list. -/
def trimChars (cs : List Char) : List Char :=
  (dropLeadingWS (dropLeadingWS cs.reverse).reverse)

/-- Case/whitespace normalization: trim surrounding whitespace and
lowercase.  Implemented structurally over the character list. -/
def normalizeString (s : String) : String :=
  ⟨(trimChars s.data).map Char.toLower⟩

/-- Modelled from the spec (section 4.2): case/whitespace normalization of a
text fragment; the concrete hash of the normalized text is configuration, so
the normalized text itself stands in for `normalized_text_hash`. -/
def normalized_text (raw : String) : String := normalizeString raw

/-- Modelled from the spec (section 3): a Signal row. -/
structure Signal where
  company_id : Nat
  signal_type : SignalType
  strength : ℚ
  raw_text : String
  source_url : String
  discovered_at : Nat
deriving DecidableEq, Repr

/-- Modelled from the spec (section 4.2): the dedup key
`(company_id, signal_type, source_url, normalized_text_hash)`. -/
def dedupKey (s : Signal) : Nat × SignalType × String × String :=
  (s.company_id, s.signal_type, s.source_url, normalized_text s.raw_text)

/-- Modelled from the spec (section 4.2): check-and-insert ingestion — when a
Signal with the same dedup key already exists the fragment is discarded (no
new row, no `discovered_at` change); otherwise the new row is appended. -/
def submitSignal (store : List Signal) (s : Signal) : List Signal :=
  if store.any (fun t => decide (dedupKey t = dedupKey s)) then store
  else store ++ [s]

/-- C3: signal ingestion is idempotent under the dedup key: when the store
holds no row with the fragment's key, the first submission yields exactly one
row with that key, and a second submission of the identical
(company, fragment, source URL) tuple — even rediscovered at another time —
leaves the store unchanged, so both times there is exactly one Signal row
and the existing row's `discovered_at` is untouched. -/
theorem C3_signal_dedup_idempotent (store : List Signal) (s s2 : Signal)
    (hkey : dedupKey s2 = dedupKey s)
    (hnew : store.countP (fun t => decide (dedupKey t = dedupKey s)) = 0) :
    (submitSignal store s).countP (fun t => decide (dedupKey t = dedupKey s)) = 1 ∧
    submitSignal (submitSignal store s) s2 = submitSignal store s ∧
    (submitSignal (submitSignal store s) s2).countP
      (fun t => decide (dedupKey t = dedupKey s)) = 1 := by
  have hnone : ∀ t ∈ store, ¬ (dedupKey t = dedupKey s) := by
    intro t ht
    have := List.countP_eq_zero.mp hnew t ht
    simpa using this
  have hany : store.any (fun t => decide (dedupKey t = dedupKey s)) = false := by
    rw [List.any_eq_false]
    intro t ht
    simpa using hnone t ht
  have hst1 : submitSignal store s = store ++ [s] := by
    unfold submitSignal
    rw [hany]
    rfl
  have hcount1 : (store ++ [s]).countP (fun t => decide (dedupKey t = dedupKey s)) = 1 := by
    rw [List.countP_append, hnew]
    simp
  have hst2 : submitSignal (store ++ [s]) s2 = store ++ [s] := by
    unfold submitSignal
    have : (store ++ [s]).any (fun t => decide (dedupKey t = dedupKey s2)) = true := by
      rw [List.any_eq_true]
      exact ⟨s, by simp, by simp [hkey]⟩
    rw [this]
    simp
  refine ⟨?_, ?_, ?_⟩
  · rw [hst1]; exact hcount1
  · rw [hst1, hst2]
  · rw [hst1, hst2]; exact hcount1

/-- Witness for C3: a concrete fragment submitted twice into an empty store
leaves exactly the one row it created. -/
theorem C3_signal_dedup_idempotent_witness :
    submitSignal
      (submitSignal [] { company_id := 1, signal_type := .funding_round,
                         strength := 9/10, raw_text := " Series B ",
                         source_url := "https://example.com/news",
                         discovered_at := 100 })
      { company_id := 1, signal_type := .funding_round,
        strength := 9/10, raw_text := " Series B ",
        source_url := "https://example.com/news",
        discovered_at := 200 } =
    submitSignal [] { company_id := 1, signal_type := .funding_round,
                      strength := 9/10, raw_text := " Series B ",
                      source_url := "https://example.com/news",
                      discovered_at := 100 } :=
  (C3_signal_dedup_idempotent []
    { company_id := 1, signal_type := .funding_round, strength := 9/10,
      raw_text := " Series B ", source_url := "https://example.com/news",
      discovered_at := 100 }
    { company_id := 1, signal_type := .funding_round, strength := 9/10,
      raw_text := " Series B ", source_url := "https://example.com/news",
      discovered_at := 200 }
    rfl rfl).2.1

end ReadyForRobots

namespace ReadyForRobots

/-- Modelled from the spec (section 3): case/whitespace-normalized company
name, the natural dedup key for import. -/
def normalizeName (name : String) : String := normalizeString name

/-- A batch item of `import_companies`; only `name` is required, other
attributes are optional and irrelevant to the import contract. -/
structure CompanyIn where
  name : Option String
deriving DecidableEq, Repr

/-- A per-item skip entry of the import response. -/
structure SkipDetail where
  name : String
  reason : String
deriving DecidableEq, Repr

/-- The `import_companies` response: added count, skip count, itemized skip
list, and the added names. -/
structure ImportResult where
  added : Nat
  skipped : Nat
  skipped_details : List SkipDetail
  names : List String
deriving DecidableEq, Repr

/-- True when a batch item has no usable name (absent, or empty after
normalization). -/
def missingName (c : CompanyIn) : Bool :=
  decide (normalizeName (c.name.getD "") = "")

/-- Modelled from the spec (sections 6 and 7): `import_companies` processed
per item over the batch, with `known` the normalized names already present
(existing companies plus items added earlier in the batch).  Items with a
missing/empty name and duplicate normalized names are skipped with a
per-item reason; every other item is added; the batch is never rejected
all-or-nothing. -/
def import_companies_go (known : List String) : List CompanyIn → ImportResult
  | [] => { added := 0, skipped := 0, skipped_details := [], names := [] }
  | c :: rest =>
    if missingName c then
      let r := import_companies_go known rest
      { r with skipped := r.skipped + 1,
               skipped_details :=
                 { name := c.name.getD "", reason := "missing name" } :: r.skipped_details }
    else
      let nm := c.name.getD ""
      if normalizeName nm ∈ known then
        let r := import_companies_go known rest
        { r with skipped := r.skipped + 1,
                 skipped_details :=
                   { name := nm, reason := "duplicate name" } :: r.skipped_details }
      else
        let r := import_companies_go (normalizeName nm :: known) rest
        { r with added := r.added + 1, names := nm :: r.names }

/-- Modelled from the spec (section 6): `import_companies` entry point,
starting from the normalized names of the existing companies. -/
def import_companies (existing : List String) (batch : List CompanyIn) : ImportResult :=
  import_companies_go existing batch

/-- Structure of `import_companies_go`, generalized over `known`. -/
theorem import_companies_go_spec (batch : List CompanyIn) :
    ∀ known : List String,
      (import_companies_go known batch).added +
        (import_companies_go known batch).skipped = batch.length ∧
      (import_companies_go known batch).skipped =
        (import_companies_go known batch).skipped_details.length ∧
      (import_companies_go known batch).added =
        (import_companies_go known batch).names.length ∧
      (∀ d ∈ (import_companies_go known batch).skipped_details,
        d.reason = "missing name" ∨ d.reason = "duplicate name") ∧
      ((import_companies_go known batch).skipped_details.countP
          (fun d => decide (d.reason = "missing name")) =
        batch.countP missingName) ∧
      (∀ n ∈ (import_companies_go known batch).names, normalizeName n ∉ known) ∧
      ((import_companies_go known batch).names.map normalizeName).Nodup := by
  induction batch with
  | nil => intro known; simp [import_companies_go]
  | cons c rest ih =>
    intro known
    by_cases hm : missingName c
    · obtain ⟨ih1, ih2, ih3, ih4, ih5, ih6, ih7⟩ := ih known
      have heq : import_companies_go known (c :: rest) =
          { import_companies_go known rest with
              skipped := (import_companies_go known rest).skipped + 1,
              skipped_details :=
                { name := c.name.getD "", reason := "missing name" } ::
                  (import_companies_go known rest).skipped_details } := by
        simp [import_companies_go, hm]
      rw [heq]
      refine ⟨by simp; omega, by simp [ih2], ih3, ?_, ?_, ih6, ih7⟩
      · intro d hd
        rcases List.mem_cons.mp hd with rfl | hd
        · exact Or.inl rfl
        · exact ih4 d hd
      · simp [List.countP_cons, hm, ih5]
    · by_cases hdup : normalizeName (c.name.getD "") ∈ known
      · obtain ⟨ih1, ih2, ih3, ih4, ih5, ih6, ih7⟩ := ih known
        have heq : import_companies_go known (c :: rest) =
            { import_companies_go known rest with
                skipped := (import_companies_go known rest).skipped + 1,
                skipped_details :=
                  { name := c.name.getD "", reason := "duplicate name" } ::
                    (import_companies_go known rest).skipped_details } := by
          simp [import_companies_go, hm, hdup]
        rw [heq]
        refine ⟨by simp; omega, by simp [ih2], ih3, ?_, ?_, ih6, ih7⟩
        · intro d hd
          rcases List.mem_cons.mp hd with rfl | hd
          · exact Or.inr rfl
          · exact ih4 d hd
        · simp [List.countP_cons, hm, ih5]
      · obtain ⟨ih1, ih2, ih3, ih4, ih5, ih6, ih7⟩ :=
          ih (normalizeName (c.name.getD "") :: known)
        have heq : import_companies_go known (c :: rest) =
            { import_companies_go (normalizeName (c.name.getD "") :: known) rest with
                added :=
                  (import_companies_go (normalizeName (c.name.getD "") :: known) rest).added + 1,
                names := c.name.getD "" ::
                  (import_companies_go (normalizeName (c.name.getD "") :: known) rest).names } := by
          simp [import_companies_go, hm, hdup]
        rw [heq]
        refine ⟨by simp; omega, ih2, by simp [ih3], ih4, ?_, ?_, ?_⟩
        · simp [List.countP_cons, hm, ih5]
        · intro n hn
          rcases List.mem_cons.mp hn with rfl | hn
          · exact hdup
          · exact fun hc => ih6 n hn (List.mem_cons_of_mem _ hc)
        · refine List.nodup_cons.mpr ⟨?_, ih7⟩
          intro hmem
          obtain ⟨n, hn, hnn⟩ := List.mem_map.mp hmem
          exact ih6 n hn (hnn ▸ List.mem_cons_self _ _)

/-- C7: `import_companies` is per-item, never all-or-nothing: each item with
a missing/empty name and each item whose normalized name duplicates an
existing (or earlier-added) company is skipped with a per-item reason in
`skipped_details`, every remaining item is added, and the response reports
the added count together with the itemized skip list — added plus skipped
always covers the whole batch. -/
theorem C7_import_companies_partial_progress (existing : List String)
    (batch : List CompanyIn) :
    (import_companies existing batch).added +
      (import_companies existing batch).skipped = batch.length ∧
    (import_companies existing batch).skipped =
      (import_companies existing batch).skipped_details.length ∧
    (import_companies existing batch).added =
      (import_companies existing batch).names.length ∧
    (∀ d ∈ (import_companies existing batch).skipped_details,
      d.reason = "missing name" ∨ d.reason = "duplicate name") ∧
    ((import_companies existing batch).skipped_details.countP
        (fun d => decide (d.reason = "missing name")) =
      batch.countP missingName) ∧
    (∀ n ∈ (import_companies existing batch).names, normalizeName n ∉ existing) ∧
    ((import_companies existing batch).names.map normalizeName).Nodup :=
  import_companies_go_spec batch existing

/-- Witness for C7 on a concrete batch: one item added, one missing-name item
skipped; the batch of two is fully accounted for. -/
theorem C7_import_companies_partial_progress_witness :
    (import_companies ["beta"] [{ name := some "Acme" }, { name := none }]).added +
      (import_companies ["beta"] [{ name := some "Acme" }, { name := none }]).skipped = 2 ∧
    (({ name := "", reason := "missing name" } : SkipDetail).reason = "missing name" ∨
      ({ name := "", reason := "missing name" } : SkipDetail).reason = "duplicate name") := by
  constructor
  · exact (C7_import_companies_partial_progress ["beta"]
      [{ name := some "Acme" }, { name := none }]).1
  · refine (C7_import_companies_partial_progress ["beta"]
      [{ name := some "Acme" }, { name := none }]).2.2.2.1
      { name := "", reason := "missing name" } ?_
    decide

end ReadyForRobots

namespace ReadyForRobots

/-- A JSON-like value, for stating response shapes of the HTTP contract. -/
inductive JVal where
  | num (n : Int)
  | str (s : String)
  | jbool (b : Bool)
  | null
  | obj (fields : List (String × JVal))
  | arr (elems : List JVal)

/-- Field lookup in a list of JSON object fields (first match). -/
def lookupField : List (String × JVal) → String → Option JVal
  | [], _ => none
  | (k', v) :: rest, k => if k' = k then some v else lookupField rest k

/-- Field lookup on a JSON value; only objects have fields. -/
def jlookup : JVal → String → Option JVal
  | .obj fields, k => lookupField fields k
  | _, _ => none

/-- The top-level keys of a JSON object. -/
def jkeys : JVal → List String
  | .obj fields => fields.map Prod.fst
  | _ => []

/-- An optional number as JSON. -/
def optNum : Option Nat → JVal
  | none => .null
  | some n => .num n

/-- An optional string as JSON. -/
def optStr : Option String → JVal
  | none => .null
  | some s => .str s

/-- Modelled from the spec (section 3): a `HealthRecord` serialized for the
health endpoint, one field per record attribute. -/
def healthRecordJson (h : HealthRecord) : JVal :=
  .obj [("consecutive_failures", .num h.consecutive_failures),
        ("consecutive_successes", .num h.consecutive_successes),
        ("circuit_open", .jbool h.circuit_open),
        ("opened_at", optNum h.opened_at),
        ("last_success", optNum h.last_success),
        ("restart_count", .num h.restart_count)]

/-- The summary block of the health endpoint (spec section 6). -/
structure HealthSummary where
  total_urls_tracked : Nat
  healthy_urls : Nat
  last_run_scraper : Option String
  last_run_status : Option String
deriving DecidableEq, Repr

/-- Modelled from the spec (section 6): `get_health` returns
`{summary: {total_urls_tracked, healthy_urls, last_run_scraper,
last_run_status}, url_health: map<url, HealthRecord>}` — exactly these two
top-level keys. -/
def get_health (smry : HealthSummary) (url_health : List (String × HealthRecord)) : JVal :=
  .obj [("summary",
          .obj [("total_urls_tracked", .num smry.total_urls_tracked),
                ("healthy_urls", .num smry.healthy_urls),
                ("last_run_scraper", optStr smry.last_run_scraper),
                ("last_run_status", optStr smry.last_run_status)]),
        ("url_health",
          .obj (url_health.map (fun p => (p.1, healthRecordJson p.2))))]

/-- The top-level fields of the health response the dashboard reads
(`pages/index.js`: `health.circuit_open_urls` at line 858,
`health.summary` and `health.url_health` in the scraper-health panel). -/
def dashboardHealthTopLevelReads : List String :=
  ["summary", "url_health", "circuit_open_urls"]

/-- The summary fields the dashboard reads (`pages/index.js` lines
1175-1185). -/
def dashboardSummaryReads : List String :=
  ["total_urls_tracked", "healthy_urls", "last_run_scraper", "last_run_status"]

/-- The per-record fields the dashboard reads (`pages/index.js` lines
1198-1210). -/
def dashboardHealthRecordReads : List String :=
  ["circuit_open", "consecutive_failures", "restart_count", "last_success"]

/-- C8 counterexample: the dashboard reads the top-level
`circuit_open_urls` field, but the spec-shaped response (exactly `summary`
and `url_health`) does not contain it, already on the empty state. -/
theorem C8_counterexample_circuit_open_urls_absent :
    "circuit_open_urls" ∈ dashboardHealthTopLevelReads ∧
    jlookup (get_health ⟨0, 0, none, none⟩ []) "circuit_open_urls" = none := by
  constructor
  · simp [dashboardHealthTopLevelReads]
  · rfl

/-- Every serialized health record carries the four fields the dashboard
reads. -/
theorem healthRecordJson_fields (h : HealthRecord) :
    ∀ k ∈ dashboardHealthRecordReads, (jlookup (healthRecordJson h) k).isSome := by
  intro k hk
  fin_cases hk <;> rfl

/-- Looking up any URL in the serialized `url_health` map yields a
serialized health record. -/
theorem lookup_urlHealth_json (uh : List (String × HealthRecord)) (url : String) (j : JVal)
    (hj : lookupField (uh.map (fun p => (p.1, healthRecordJson p.2))) url = some j) :
    ∃ h : HealthRecord, j = healthRecordJson h := by
  induction uh with
  | nil => simp [lookupField] at hj
  | cons p rest ih =>
    by_cases hk : p.1 = url
    · rw [List.map_cons] at hj
      unfold lookupField at hj
      rw [if_pos hk] at hj
      exact ⟨p.2, (Option.some_injective _ hj).symm⟩
    · rw [List.map_cons] at hj
      unfold lookupField at hj
      rw [if_neg hk] at hj
      exact ih hj

/-- Every tracked URL is present in the serialized `url_health` map. -/
theorem lookup_urlHealth_present (uh : List (String × HealthRecord)) (p : String × HealthRecord)
    (hp : p ∈ uh) :
    (lookupField (uh.map (fun q => (q.1, healthRecordJson q.2))) p.1).isSome := by
  induction uh with
  | nil => simp at hp
  | cons q rest ih =>
    rw [List.map_cons]
    unfold lookupField
    by_cases hk : q.1 = p.1
    · rw [if_pos hk]; rfl
    · rw [if_neg hk]
      rcases List.mem_cons.mp hp with rfl | hp
      · exact absurd rfl hk
      · exact ih hp

/-- C8 amended: the health response consists of exactly the top-level keys
`summary` (with exactly the four summary fields the dashboard reads) and
`url_health` mapping every tracked URL to a record carrying the four
per-record fields the dashboard reads — but the dashboard's top-level
`circuit_open_urls` read is NOT present in this shape (the dashboard
defaults it to an empty count). -/
theorem C8_get_health_shape (smry : HealthSummary)
    (uh : List (String × HealthRecord)) :
    jkeys (get_health smry uh) = ["summary", "url_health"] ∧
    (∃ sj, jlookup (get_health smry uh) "summary" = some sj ∧
      jkeys sj = dashboardSummaryReads) ∧
    (∃ uj, jlookup (get_health smry uh) "url_health" = some uj ∧
      (∀ p ∈ uh, (jlookup uj p.1).isSome) ∧
      (∀ url j, jlookup uj url = some j →
        ∀ k ∈ dashboardHealthRecordReads, (jlookup j k).isSome)) ∧
    jlookup (get_health smry uh) "circuit_open_urls" = none := by
  refine ⟨rfl, ⟨_, rfl, rfl⟩, ⟨_, rfl, ?_, ?_⟩, rfl⟩
  · intro p hp
    exact lookup_urlHealth_present uh p hp
  · intro url j hj k hk
    obtain ⟨h, rfl⟩ := lookup_urlHealth_json uh url j hj
    exact healthRecordJson_fields h k hk

/-- Witness for C8 amended: on a concrete one-URL state the top-level keys
are exactly summary and url_health, and the tracked URL is present in the
serialized map. -/
theorem C8_get_health_shape_witness :
    jkeys (get_health ⟨1, 1, some "jobs", some "success"⟩
      [("https://example.com/jobs", initHealth)]) = ["summary", "url_health"] ∧
    (jlookup (JVal.obj [("https://example.com/jobs", healthRecordJson initHealth)])
      "https://example.com/jobs").isSome := by
  constructor
  · exact (C8_get_health_shape ⟨1, 1, some "jobs", some "success"⟩
      [("https://example.com/jobs", initHealth)]).1
  · obtain ⟨uj, huj, hpres, _⟩ := (C8_get_health_shape ⟨1, 1, some "jobs", some "success"⟩
      [("https://example.com/jobs", initHealth)]).2.2.1
    have heval : jlookup (get_health ⟨1, 1, some "jobs", some "success"⟩
        [("https://example.com/jobs", initHealth)]) "url_health" =
        some (JVal.obj [("https://example.com/jobs", healthRecordJson initHealth)]) := rfl
    have huj' : uj = JVal.obj [("https://example.com/jobs", healthRecordJson initHealth)] :=
      Option.some_injective _ (huj.symm.trans heval)
    rw [huj'] at hpres
    exact hpres ("https://example.com/jobs", initHealth) (by simp)

end ReadyForRobots

namespace ReadyForRobots

/-- The four sub-score buckets of the Scoring Engine (spec section 4.3). -/
inductive Bucket where
  | automation
  | labor_pain
  | expansion
  | market_fit
deriving DecidableEq, Repr

/-- Modelled from the spec (sections 4.3 and 9): which signal types feed each
bucket; the assignment is product configuration, documented here as chosen
constants. -/
def bucketTypes : Bucket → List SignalType
  | .automation => [.capex, .job_posting]
  | .labor_pain => [.labor_shortage]
  | .expansion => [.expansion, .ma_activity, .funding_round]
  | .market_fit => [.strategic_hire, .news]

/-- Modelled from the spec (sections 4.3 and 9): per-type weights; product
configuration, documented as chosen positive constants. -/
def typeWeight : SignalType → ℚ
  | .funding_round => 25
  | .strategic_hire => 15
  | .capex => 20
  | .ma_activity => 18
  | .expansion => 20
  | .job_posting => 12
  | .labor_shortage => 22
  | .news => 8

/-- Modelled from the spec (sections 4.3 and 9): recency decay as a function
of signal age; any monotonic non-increasing positive decay is admissible,
the chosen configuration is `1 / (1 + age)`. -/
def recency_decay (age : Nat) : ℚ := 1 / (1 + (age : ℚ))

/-- Clamp a rational into `[lo, hi]`. -/
def clampQ (lo hi x : ℚ) : ℚ := max lo (min hi x)

/-- Modelled from the spec (section 4.3): a signal's contribution,
`strength × per-type weight × recency_decay(age at scoring time)`. -/
def contribution (now : Nat) (s : Signal) : ℚ :=
  s.strength * typeWeight s.signal_type * recency_decay (now - s.discovered_at)

/-- Modelled from the spec (section 4.3): a sub-score,
`clamp(Σ over signals of type-in-bucket of contribution, 0, 100)`. -/
def subScore (now : Nat) (b : Bucket) (sigs : List Signal) : ℚ :=
  clampQ 0 100
    (((sigs.filter (fun s => decide (s.signal_type ∈ bucketTypes b))).map
        (contribution now)).sum)

/-- Modelled from the spec (sections 4.3 and 9): `overall_score` as the fixed
weighted combination 4:3:2:1 of the four sub-scores, clamped to [0,100]. -/
def overall_score (now : Nat) (sigs : List Signal) : ℚ :=
  clampQ 0 100
    ((4 * subScore now .automation sigs + 3 * subScore now .labor_pain sigs +
      2 * subScore now .expansion sigs + 1 * subScore now .market_fit sigs) / 10)

/-- Modelled from the spec (section 4.3): the deterministic ordering used to
rank signals for `priority_reasons` — larger contribution first, ties broken
by higher strength first and then earlier `discovered_at`. -/
def reasonLE (now : Nat) (a b : Signal) : Bool :=
  decide (contribution now b < contribution now a) ||
    (decide (contribution now b = contribution now a) &&
      (decide (b.strength < a.strength) ||
        (decide (b.strength = a.strength) && decide (a.discovered_at ≤ b.discovered_at))))

/-- The company's signals ranked for reason selection (stable merge sort
under `reasonLE`). -/
def rankedSignals (now : Nat) (sigs : List Signal) : List Signal :=
  sigs.mergeSort (reasonLE now)

/-- The distinct signal types of a ranked list, first occurrence kept. -/
def dedupTypes (seen : List SignalType) : List Signal → List SignalType
  | [] => []
  | s :: rest =>
    if s.signal_type ∈ seen then dedupTypes seen rest
    else s.signal_type :: dedupTypes (s.signal_type :: seen) rest

/-- Modelled from the spec (section 4.3): the short human-readable phrase for
a signal type. -/
def phrase : SignalType → String
  | .funding_round => "Recent funding round"
  | .strategic_hire => "Strategic executive hire"
  | .capex => "Capital expenditure announced"
  | .ma_activity => "M&A activity"
  | .expansion => "Expansion under way"
  | .job_posting => "Actively hiring"
  | .labor_shortage => "Labor shortage pressure"
  | .news => "In the news"

/-- Modelled from the spec (section 4.3): `priority_reasons`, the top three
signal types by ranked order, rendered as phrases. -/
def priority_reasons (now : Nat) (sigs : List Signal) : List String :=
  ((dedupTypes [] (rankedSignals now sigs)).take 3).map phrase

/-- Modelled from the spec (section 3): the derived Score projection. -/
structure Score where
  automation_score : ℚ
  labor_pain_score : ℚ
  expansion_score : ℚ
  market_fit_score : ℚ
  overall : ℚ
  tier : Tier
  priority_reasons : List String
  computed_at : Nat
deriving DecidableEq, Repr

/-- Modelled from the spec (section 4.3): the Scoring Engine as a pure
function of the company's full current signal set. -/
def computeScore (now : Nat) (sigs : List Signal) : Score :=
  { automation_score := subScore now .automation sigs,
    labor_pain_score := subScore now .labor_pain sigs,
    expansion_score := subScore now .expansion sigs,
    market_fit_score := subScore now .market_fit sigs,
    overall := overall_score now sigs,
    tier := priority_tier (overall_score now sigs),
    priority_reasons := priority_reasons now sigs,
    computed_at := now }

/-- Modelled from the spec (section 3): the per-company store the recompute
trigger acts on — the signal set plus the single current Score row, which is
overwritten (not appended) on recompute. -/
structure CompanyState where
  signals : List Signal
  score : Option Score
deriving DecidableEq, Repr

/-- Modelled from the spec (section 4.3): recompute overwrites the single
current Score row from the current signal set. -/
def recompute (now : Nat) (st : CompanyState) : CompanyState :=
  { st with score := some (computeScore now st.signals) }

end ReadyForRobots

namespace ReadyForRobots

/-- The reason ordering is total. -/
theorem reasonLE_total (now : Nat) (a b : Signal) :
    reasonLE now a b || reasonLE now b a := by
  unfold reasonLE
  simp only [Bool.or_eq_true, Bool.and_eq_true, decide_eq_true_eq]
  rcases lt_trichotomy (contribution now a) (contribution now b) with hc | hc | hc
  · exact Or.inr (Or.inl hc)
  · rcases lt_trichotomy a.strength b.strength with hst | hst | hst
    · exact Or.inr (Or.inr ⟨hc, Or.inl hst⟩)
    · rcases Nat.le_total a.discovered_at b.discovered_at with hd | hd
      · exact Or.inl (Or.inr ⟨hc.symm, Or.inr ⟨hst.symm, hd⟩⟩)
      · exact Or.inr (Or.inr ⟨hc, Or.inr ⟨hst, hd⟩⟩)
    · exact Or.inl (Or.inr ⟨hc.symm, Or.inl hst⟩)
  · exact Or.inl (Or.inl hc)

/-- The reason ordering is transitive. -/
theorem reasonLE_trans (now : Nat) (a b c : Signal)
    (h1 : reasonLE now a b) (h2 : reasonLE now b c) : reasonLE now a c := by
  unfold reasonLE at *
  simp only [Bool.or_eq_true, Bool.and_eq_true, decide_eq_true_eq] at *
  rcases h1 with h1 | ⟨h1e, h1s⟩ <;> rcases h2 with h2 | ⟨h2e, h2s⟩
  · exact Or.inl (h2.trans h1)
  · exact Or.inl (by rw [h2e]; exact h1)
  · exact Or.inl (by rw [← h1e]; exact h2)
  · refine Or.inr ⟨h2e.trans h1e, ?_⟩
    rcases h1s with h1s | ⟨h1st, h1d⟩ <;> rcases h2s with h2s | ⟨h2st, h2d⟩
    · exact Or.inl (h2s.trans h1s)
    · exact Or.inl (by rw [h2st]; exact h1s)
    · exact Or.inl (by rw [← h1st]; exact h2s)
    · exact Or.inr ⟨h2st.trans h1st, h1d.trans h2d⟩

/-- C4: score recompute is idempotent and deterministic: recomputing twice
on an unchanged signal set yields the identical `CompanyState` (the single
Score row is overwritten with identical content, `priority_reasons`
included), the Score is a function of the signal set alone, and the ranked
signal list underlying `priority_reasons` is sorted by the stable tie-break
(larger contribution, then higher strength, then earlier discovered_at). -/
theorem C4_recompute_idempotent_deterministic (now : Nat) :
    (∀ st : CompanyState, recompute now (recompute now st) = recompute now st) ∧
    (∀ sigs sigs' : List Signal, sigs = sigs' →
      computeScore now sigs = computeScore now sigs') ∧
    (∀ sigs : List Signal,
      (rankedSignals now sigs).Pairwise (fun a b => reasonLE now a b = true)) := by
  refine ⟨?_, ?_, ?_⟩
  · intro st
    simp [recompute]
  · intro sigs sigs' h
    rw [h]
  · intro sigs
    exact List.sorted_mergeSort (reasonLE_trans now) (reasonLE_total now) sigs

/-- Witness for C4 on a concrete state. -/
theorem C4_recompute_idempotent_deterministic_witness :
    recompute 7 (recompute 7
      { signals := [{ company_id := 1, signal_type := .funding_round, strength := 9/10,
                      raw_text := "Series B", source_url := "u", discovered_at := 3 }],
        score := none }) =
    recompute 7
      { signals := [{ company_id := 1, signal_type := .funding_round, strength := 9/10,
                      raw_text := "Series B", source_url := "u", discovered_at := 3 }],
        score := none } ∧
    computeScore 7 [] = computeScore 7 [] :=
  ⟨(C4_recompute_idempotent_deterministic 7).1 _,
   (C4_recompute_idempotent_deterministic 7).2.1 [] [] rfl⟩

/-- Every per-type weight is positive. -/
theorem typeWeight_pos (t : SignalType) : 0 < typeWeight t := by
  cases t <;> norm_num [typeWeight]

/-- Recency decay is non-negative. -/
theorem recency_decay_nonneg (age : Nat) : 0 ≤ recency_decay age := by
  unfold recency_decay
  positivity

/-- Recency decay is monotonic non-increasing in age. -/
theorem recency_decay_antitone (a b : Nat) (h : a ≤ b) :
    recency_decay b ≤ recency_decay a := by
  unfold recency_decay
  have ha : (0 : ℚ) < 1 + (a : ℚ) := by positivity
  apply one_div_le_one_div_of_le ha
  have : (a : ℚ) ≤ (b : ℚ) := by exact_mod_cast h
  linarith

/-- A signal of non-negative strength contributes non-negatively. -/
theorem contribution_nonneg (now : Nat) (s : Signal) (hs : 0 ≤ s.strength) :
    0 ≤ contribution now s :=
  mul_nonneg (mul_nonneg hs (typeWeight_pos s.signal_type).le)
    (recency_decay_nonneg _)

/-- Clamping preserves order. -/
theorem clampQ_mono (lo hi x y : ℚ) (h : x ≤ y) : clampQ lo hi x ≤ clampQ lo hi y :=
  max_le_max le_rfl (min_le_min le_rfl h)

/-- Adding one signal of non-negative strength never decreases a
sub-score. -/
theorem subScore_cons_le (now : Nat) (b : Bucket) (s : Signal) (sigs : List Signal)
    (hs : 0 ≤ s.strength) :
    subScore now b sigs ≤ subScore now b (s :: sigs) := by
  unfold subScore
  apply clampQ_mono
  by_cases hb : s.signal_type ∈ bucketTypes b
  · rw [List.filter_cons, if_pos (by simpa using hb)]
    simp only [List.map_cons, List.sum_cons]
    have := contribution_nonneg now s hs
    linarith
  · rw [List.filter_cons, if_neg (by simpa using hb)]

/-- C5: adding one new signal of non-negative strength and recomputing never
decreases `overall_score`; moreover recency decay is monotonic
non-increasing in age. -/
theorem C5_add_signal_monotone (now : Nat) (s : Signal) (sigs : List Signal)
    (hs : 0 ≤ s.strength) :
    overall_score now sigs ≤ overall_score now (s :: sigs) ∧
    (∀ a b : Nat, a ≤ b → recency_decay b ≤ recency_decay a) := by
  constructor
  · unfold overall_score
    apply clampQ_mono
    have ha := subScore_cons_le now .automation s sigs hs
    have hl := subScore_cons_le now .labor_pain s sigs hs
    have he := subScore_cons_le now .expansion s sigs hs
    have hm := subScore_cons_le now .market_fit s sigs hs
    have hdiv : ∀ x y : ℚ, x ≤ y → x / 10 ≤ y / 10 := fun x y hxy => by linarith
    apply hdiv
    linarith
  · exact fun a b h => recency_decay_antitone a b h

/-- Witness for C5: a concrete funding signal does not lower the empty set's
overall score, and decay at age 2 is at most decay at age 1. -/
theorem C5_add_signal_monotone_witness :
    overall_score 0 [] ≤ overall_score 0
      [{ company_id := 1, signal_type := .funding_round, strength := 9/10,
         raw_text := "Series B", source_url := "u", discovered_at := 0 }] ∧
    recency_decay 2 ≤ recency_decay 1 := by
  have h := C5_add_signal_monotone 0
    { company_id := 1, signal_type := .funding_round, strength := 9/10,
      raw_text := "Series B", source_url := "u", discovered_at := 0 }
    [] (by norm_num)
  exact ⟨h.1, h.2 1 2 (by norm_num)⟩

end ReadyForRobots
